import Mathlib

/-!
Verification development for the VentureCompassAI orchestration core.

The definitions below are shallow embeddings of the Python source:
  - backend/app/models/schemas.py        (state merge reducers)
  - backend/app/core/budget_tracker.py   (budget ledger)
  - backend/app/agents/llm_orchestrator.py (workflow graph, stage nodes,
    persistence)
  - backend/app/agents/orchestrator.py   (legacy stage nodes, persistence)
  - backend/app/api/v1/endpoints/runs.py (run-creation endpoint)

Python dicts are modelled as association lists in insertion order
(`PyDict`); Python floats are modelled as exact rationals; `datetime`
values are opaque naturals passed in by the caller.
-/

/-- Association-list model of a Python `dict`, keeping insertion order.
A genuine dict has pairwise distinct keys, captured by `NodupKeys` where
a statement needs it. -/
abbrev PyDict (α : Type) := List (String × α)

/-- Model of `d[k]` / `d.get(k)`: the value of the first entry with key `k`. -/
def dget {α : Type} : PyDict α → String → Option α
  | [], _ => none
  | p :: rest, k => if p.1 = k then some p.2 else dget rest k

/-- Model of `d.get(k, v0)`. -/
def dgetD {α : Type} (d : PyDict α) (k : String) (v0 : α) : α :=
  (dget d k).getD v0

/-- Model of the assignment `d[k] = v`: update the entry in place when the
key is present, append a new entry otherwise. -/
def dset {α : Type} : PyDict α → String → α → PyDict α
  | [], k, v => [(k, v)]
  | p :: rest, k, v => if p.1 = k then (k, v) :: rest else p :: dset rest k v

/-- The key set of a `PyDict` is duplicate-free (true of every real dict). -/
def NodupKeys {α : Type} (d : PyDict α) : Prop :=
  (d.map Prod.fst).Nodup

instance {α : Type} (d : PyDict α) : Decidable (NodupKeys d) := by
  unfold NodupKeys; infer_instance

/-- schemas.py `merge_costs`: start from a copy of `left`, then for each
item of `right` set `result[key] = result.get(key, 0) + value`. -/
def merge_costs (left right : PyDict Int) : PyDict Int :=
  right.foldl (fun result kv => dset result kv.1 (dgetD result kv.1 0 + kv.2)) left

/-- schemas.py `merge_confidence_scores`: for each item of `right`, keep
the maximum when the key is already present, otherwise insert it. -/
def merge_confidence_scores (left right : PyDict ℚ) : PyDict ℚ :=
  right.foldl
    (fun result kv =>
      match dget result kv.1 with
      | some cur => dset result kv.1 (max cur kv.2)
      | none => dset result kv.1 kv.2)
    left

/-- schemas.py: the `status_priority` lookup table of `merge_status`,
with `.get(s, 0)` default for unknown statuses. -/
def status_priority (s : String) : Nat :=
  if s = "error" then 5
  else if s = "partial" then 4
  else if s = "running" then 3
  else if s = "complete" then 2
  else if s = "pending" then 1
  else 0

/-- schemas.py `merge_status`: `left if left_priority >= right_priority
else right`. -/
def merge_status (left right : String) : String :=
  if status_priority left ≥ status_priority right then left else right

/-- Contribution of one cost dictionary to one key: sum of the values of
all its entries carrying that key (for a real dict, at most one). -/
def costAt (d : PyDict Int) (q : String) : Int :=
  ((d.filter fun p => p.1 = q).map Prod.snd).sum

/-- schemas.py `merge_phase`: the phase-priority lookup table with
`.get(s, 0)` default. -/
def phase_priority (s : String) : Nat :=
  if s = "synthesis" then 4
  else if s = "verification" then 3
  else if s = "research" then 2
  else if s = "discovery" then 1
  else 0

/-- schemas.py `merge_phase`. -/
def merge_phase (left right : String) : String :=
  if phase_priority left ≥ phase_priority right then left else right

/-! Heap-aware model of `merge_queries` and `merge_results`
(schemas.py lines 15-33).  Python lists are mutable objects: the dict
values are modelled as heap addresses (`Nat`) into a store of list
contents, so that the shallow `left.copy()` and the in-place
`result[key].extend(value)` of the source are represented faithfully. -/

/-- The store of list objects; the address of a list is its index. -/
abbrev ListHeap := List (List String)

/-- Contents of the list object at address `a`. -/
def heapGet (h : ListHeap) (a : Nat) : List String :=
  h.getD a []

/-- Overwrite the contents of the list object at address `a`. -/
def heapSet (h : ListHeap) (a : Nat) (v : List String) : ListHeap :=
  h.set a v

/-- The addresses held by a dict of list references. -/
def addrs (d : PyDict Nat) : List Nat :=
  d.map Prod.snd

/-- schemas.py `merge_queries`: `result = left.copy()` is a shallow copy
(the key-to-object bindings are copied, the list objects are shared);
then for each item of `right`, `result[key].extend(value)` appends the
contents of right's list object to the list object bound in `result`
when the key is present, else `result[key] = value` aliases right's
list object. -/
def merge_queries (h : ListHeap) (left right : PyDict Nat) : ListHeap × PyDict Nat :=
  right.foldl
    (fun st kv =>
      match dget st.2 kv.1 with
      | some a => (heapSet st.1 a (heapGet st.1 a ++ heapGet st.1 kv.2), st.2)
      | none => (st.1, dset st.2 kv.1 kv.2))
    (h, left)

/-- schemas.py `merge_results`: its body is textually identical to
`merge_queries` (only the docstring and the value type annotation
differ). -/
def merge_results (h : ListHeap) (left right : PyDict Nat) : ListHeap × PyDict Nat :=
  right.foldl
    (fun st kv =>
      match dget st.2 kv.1 with
      | some a => (heapSet st.1 a (heapGet st.1 a ++ heapGet st.1 kv.2), st.2)
      | none => (st.1, dset st.2 kv.1 kv.2))
    (h, left)

/-- The loop body shared by `merge_queries` and `merge_results`, named
so the lemmas below can speak about one fold step. -/
def extend_step (st : ListHeap × PyDict Nat) (kv : String × Nat) :
    ListHeap × PyDict Nat :=
  match dget st.2 kv.1 with
  | some a => (heapSet st.1 a (heapGet st.1 a ++ heapGet st.1 kv.2), st.2)
  | none => (st.1, dset st.2 kv.1 kv.2)

/-! Budget ledger model (core/budget_tracker.py).  The MongoDB
`budget_tracking` collection is modelled as the list of its records in
insertion order; `$sum`-aggregation is a list sum.  Python floats are
modelled as exact rationals. -/

/-- One record inserted by `BudgetTracker.record_cost`. -/
structure LedgerEntry where
  operation : String
  cost : ℚ
  tokens_used : Int
  run_id : Option String
deriving DecidableEq

/-- budget_tracker.py `get_current_spend`: with a `run_id`, the sum of
the costs of that run's records; without one, the sum over all
records (an empty aggregation yields 0.0). -/
def get_current_spend (ledger : List LedgerEntry) (run_id : Option String) : ℚ :=
  match run_id with
  | some rid => ((ledger.filter fun e => e.run_id = some rid).map LedgerEntry.cost).sum
  | none => (ledger.map LedgerEntry.cost).sum

/-- budget_tracker.py `get_run_spend`: 0.0 when no current run is set. -/
def get_run_spend (ledger : List LedgerEntry) (current_run_id : Option String) : ℚ :=
  match current_run_id with
  | none => 0
  | some rid => get_current_spend ledger (some rid)

/-- budget_tracker.py `check_budget`.  The per-run $2 warning of the
source only logs and is dropped here; the function returns `false`
exactly when the global condition holds and `warn_only` is false. -/
def check_budget (max_budget : ℚ) (ledger : List LedgerEntry)
    (estimated_cost : ℚ) (warn_only : Bool) : Bool :=
  let total_spend := get_current_spend ledger none
  if total_spend + estimated_cost > max_budget then
    if warn_only then true else false
  else true

/-- budget_tracker.py `record_cost`: appends one immutable record
tagged with the active run id. -/
def record_cost (ledger : List LedgerEntry) (operation : String)
    (actual_cost : ℚ) (tokens_used : Int) (current_run_id : Option String) :
    List LedgerEntry :=
  ledger ++ [{ operation := operation, cost := actual_cost,
               tokens_used := tokens_used, run_id := current_run_id }]

/-- The dictionary returned by `get_budget_status` (the
`recent_operations` field, a database query, is omitted). -/
structure BudgetStatus where
  max_budget : ℚ
  current_spend : ℚ
  remaining : ℚ
  percentage_used : ℚ
  status : String
deriving DecidableEq

/-- budget_tracker.py `get_budget_status`. -/
def get_budget_status (max_budget : ℚ) (ledger : List LedgerEntry) : BudgetStatus :=
  let current_spend := get_current_spend ledger none
  let remaining := max_budget - current_spend
  { max_budget := max_budget
    current_spend := current_spend
    remaining := remaining
    percentage_used := current_spend / max_budget * 100
    status :=
      if remaining > 2 then "healthy"
      else if remaining > 1/2 then "warning"
      else "critical" }

/-! Workflow graph model (llm_orchestrator.py `_build_llm_graph`).
`__start__` and `__end__` stand for LangGraph's START and END
sentinels. -/

/-- The edges added by `_build_llm_graph`, in declaration order. -/
def llm_graph_edges : List (String × String) :=
  [("__start__", "discovery_llm_agent"),
   ("discovery_llm_agent", "news_llm_agent"),
   ("news_llm_agent", "founder_llm_agent"),
   ("founder_llm_agent", "competitive_llm_agent"),
   ("competitive_llm_agent", "patent_llm_agent"),
   ("patent_llm_agent", "deepdive_llm_agent"),
   ("deepdive_llm_agent", "verification_llm_agent"),
   ("verification_llm_agent", "synthesis_llm"),
   ("synthesis_llm", "__end__")]

/-- Successor of a node in the compiled graph: the target of its unique
outgoing edge, if any. -/
def next_node (n : String) : Option String :=
  (llm_graph_edges.find? fun e => e.1 == n).map Prod.snd

/-- Trace of the stage nodes the sequential executor visits, following
successor edges from `n` until reaching `__end__` (fuel-bounded to keep
the function total; enough fuel makes it exact). -/
def run_trace : Nat → String → List String
  | 0, _ => []
  | Nat.succ fuel, n =>
    match next_node n with
    | none => []
    | some m => if m = "__end__" then [] else m :: run_trace fuel m

/-! Stage-node model (llm_orchestrator.py and orchestrator.py).  The
body of each node's `try` block — the agent call together with the
state-field accesses — is abstracted as an `Except` value: `.ok` when
it returns a result, `.error msg` when it raises an exception with
message `msg`.  `datetime.utcnow()` is an opaque `now` supplied by the
caller. -/

/-- One entry of the `errors` list: `{"agent": ..., "message": ...,
"timestamp": ...}`. -/
structure ErrorEntry where
  agent : String
  message : String
  timestamp : Nat
deriving DecidableEq

/-- The fields of `DiscoveryResults` that `discovery_llm_node` reads. -/
structure DiscoveryOutcome where
  discovered_urls : List String
  company_aliases : List String
  confidence_score : ℚ
deriving DecidableEq

/-- The part of the LLM workflow state that `discovery_llm_node`
touches.  The LLM graph is built over a plain dict schema, so the
returned `{**state, ...}` dict replaces the stored state wholesale. -/
structure LLMRunState where
  run_id : String
  company_name : String
  discovery_results : Option DiscoveryOutcome
  company_aliases : List String
  current_phase : String
  status : String
  errors : List ErrorEntry
deriving DecidableEq

/-- llm_orchestrator.py `discovery_llm_node`: on success it stores the
discovery results and sets phase/status; on any exception it appends
one error entry and sets status to "partial". -/
def discovery_llm_node (state : LLMRunState)
    (agent_call : Except String DiscoveryOutcome) (now : Nat) : LLMRunState :=
  match agent_call with
  | .ok d =>
    { state with
      discovery_results := some d
      company_aliases := d.company_aliases
      current_phase := "research"
      status := "running" }
  | .error msg =>
    { state with
      errors := state.errors ++
        [{ agent := "discovery_llm", message := msg, timestamp := now }]
      status := "partial" }

/-- schemas.py `RiskItem`. -/
structure RiskItem where
  category : String
  severity : String
  summary : String
  citations : List String
deriving DecidableEq

/-- The partial state delta returned by the legacy
`redflag_screener_node` (orchestrator.py): only the keys present in
the returned dict. -/
structure RedflagDelta where
  risks : Option (List RiskItem)
  status : String
  errors : Option (List ErrorEntry)
deriving DecidableEq

/-- orchestrator.py `redflag_screener_node`: the keyword scan of the
`try` block is abstracted as `body`; on success it returns
`{"risks": ..., "status": "complete"}`, on any exception it returns an
errors append with status "error". -/
def redflag_screener_node (state_errors : List ErrorEntry)
    (body : Except String (List RiskItem)) (now : Nat) : RedflagDelta :=
  match body with
  | .ok risks => { risks := some risks, status := "complete", errors := none }
  | .error msg =>
    { risks := none
      status := "error"
      errors := some (state_errors ++
        [{ agent := "redflag_screener", message := msg, timestamp := now }]) }

/-! Persistence model (llm_orchestrator.py `_persist_llm_results_to_db`
and orchestrator.py `_persist_results_to_db`).  Each entity kind is a
named write; `present k` says the state holds data of kind `k` (the
`if` guard before the write), `failing k` says the database write for
kind `k` raises.  A step threads `(attempted writes, an exception is
propagating)`; a write wrapped in its own `try/except` (`caught`)
swallows its failure, an unwrapped one starts propagation, which skips
every later write until an enclosing handler. -/

/-- One persistence write in sequence. -/
def persist_step (present failing : String → Bool) (caught : Bool)
    (st : List String × Bool) (k : String) : List String × Bool :=
  match st with
  | (attempted, true) => (attempted, true)
  | (attempted, false) =>
    if present k then (attempted ++ [k], if caught then false else failing k)
    else (attempted, false)

/-- The per-kind-guarded writes of `_persist_llm_results_to_db`, in
source order; each has its own inner `try/except`. -/
def llm_caught_kinds : List String :=
  ["news", "patents", "founders", "competitive", "deepdive", "verification"]

/-- llm_orchestrator.py `_persist_llm_results_to_db`: six writes each
wrapped in an inner `try/except`, then the `insights` write protected
only by the outer handler; the outer `except` swallows everything, so
the function never raises to its caller. -/
def persist_llm_results_to_db (present failing : String → Bool) :
    List String × Bool :=
  let st := llm_caught_kinds.foldl (persist_step present failing true) ([], false)
  let st := persist_step present failing false st "insights"
  (st.1, false)

/-- The writes of the legacy `_persist_results_to_db`, in source order;
none has its own handler, only the single outer `try/except`. -/
def legacy_kinds : List String :=
  ["news", "patents", "insights", "risks"]

/-- orchestrator.py `_persist_results_to_db`: one shared `try` around
all four writes; the outer `except` swallows the first failure, so the
function never raises, but every write after a failing one is
skipped. -/
def persist_results_to_db (present failing : String → Bool) :
    List String × Bool :=
  let st := legacy_kinds.foldl (persist_step present failing false) ([], false)
  (st.1, false)

/-- Specification-side description of a failure-aborted write sequence:
the writes attempted are the given kinds up to and including the first
failing one. -/
def firstFailSeq (failing : String → Bool) : List String → List String
  | [] => []
  | k :: rest => if failing k then [k] else k :: firstFailSeq failing rest

/-! Run-creation endpoint model (api/v1/endpoints/runs.py
`create_run`). -/

/-- The run document inserted into the `runs` collection (timestamps
omitted; the cost sub-dict is flattened). -/
structure RunDoc where
  run_id : String
  company_name : String
  company_domain : Option String
  status : String
  cost_tavily_credits : Int
  cost_llm_tokens : Int
  cost_openai_usd : ℚ
  errors : List ErrorEntry
deriving DecidableEq

/-- The JSON body returned by the endpoint. -/
structure CreateRunResponse where
  run_id : String
  status : String
deriving DecidableEq

/-- runs.py `create_run`: generates `run_id = "r_" + uuid4().hex[:8]`
(the fresh uuid hex is an input here), inserts a run document with
status "pending", schedules the background task, and responds with
`{"run_id": run_id, "status": "running"}`. -/
def create_run (uuid_hex : String) (company : String) (domain : Option String) :
    RunDoc × CreateRunResponse :=
  let run_id := "r_" ++ uuid_hex.take 8
  let run_doc : RunDoc :=
    { run_id := run_id
      company_name := company
      company_domain := domain
      status := "pending"
      cost_tavily_credits := 0
      cost_llm_tokens := 0
      cost_openai_usd := 0
      errors := [] }
  (run_doc, { run_id := run_id, status := "running" })

/-- The spec's ranked status values in increasing priority order:
error > partial > running > complete > pending.  Note "completed" is
absent: it is not in the reducer's priority table. -/
def spec_status_order : List String :=
  ["pending", "complete", "running", "partial", "error"]

-- Basic lemmas about the dict model.

theorem dget_dset {α : Type} (d : PyDict α) (k : String) (v : α) (q : String) :
    dget (dset d k v) q = if q = k then some v else dget d q := by
  induction d with
  | nil =>
    by_cases h : q = k
    · simp [dset, dget, h]
    · have h' : ¬ k = q := fun hc => h hc.symm
      simp [dset, dget, h, h']
  | cons p rest ih =>
    by_cases hpk : p.1 = k
    · by_cases hqk : q = k
      · subst hqk
        simp [dset, dget, hpk]
      · have hkq : ¬ k = q := fun hc => hqk hc.symm
        have hpq : ¬ p.1 = q := fun hc => hqk (hpk.symm.trans hc).symm
        simp [dset, dget, hpk, hqk, hkq, hpq]
    · by_cases hpq : p.1 = q
      · have hqk : ¬ q = k := fun h => hpk (hpq.trans h)
        simp [dset, dget, hpk, hpq, hqk]
      · simp [dset, dget, hpk, hpq, ih]

theorem dget_eq_none_of_not_mem_keys {α : Type} (d : PyDict α) (q : String)
    (h : q ∉ d.map Prod.fst) : dget d q = none := by
  induction d with
  | nil => rfl
  | cons p rest ih =>
    simp only [List.map_cons, List.mem_cons] at h
    push_neg at h
    have hpq : ¬ p.1 = q := fun hc => h.1 hc.symm
    simp [dget, hpq, ih h.2]

theorem costAt_eq_dgetD (d : PyDict Int) (q : String) (hd : NodupKeys d) :
    costAt d q = dgetD d q 0 := by
  induction d with
  | nil => rfl
  | cons p rest ih =>
    unfold NodupKeys at hd
    simp only [List.map_cons, List.nodup_cons] at hd
    by_cases hpq : p.1 = q
    · have hq : q ∉ rest.map Prod.fst := by rw [← hpq]; exact hd.1
      have hfil : rest.filter (fun p => p.1 = q) = [] := by
        rw [List.filter_eq_nil_iff]
        intro a ha
        simp only [decide_eq_true_eq]
        intro hc
        exact hq (hc ▸ List.mem_map_of_mem Prod.fst ha)
      simp [costAt, dgetD, dget, hpq, hfil]
    · have := ih hd.2
      simp [costAt, dgetD, dget, hpq] at this ⊢
      exact this

theorem dgetD_merge_costs (l r : PyDict Int) (q : String) :
    dgetD (merge_costs l r) q 0 = dgetD l q 0 + costAt r q := by
  induction r generalizing l with
  | nil => simp [merge_costs, costAt]
  | cons kv r' ih =>
    have hstep : merge_costs l (kv :: r')
        = merge_costs (dset l kv.1 (dgetD l kv.1 0 + kv.2)) r' := by
      simp [merge_costs, List.foldl_cons]
    rw [hstep, ih]
    by_cases hq : kv.1 = q
    · have hq' : q = kv.1 := hq.symm
      have : dgetD (dset l kv.1 (dgetD l kv.1 0 + kv.2)) q 0
          = dgetD l kv.1 0 + kv.2 := by
        simp [dgetD, dget_dset, hq']
      rw [this, hq']
      simp [costAt, hq]
      ring
    · have hq' : ¬ q = kv.1 := fun hc => hq hc.symm
      have : dgetD (dset l kv.1 (dgetD l kv.1 0 + kv.2)) q 0 = dgetD l q 0 := by
        simp [dgetD, dget_dset, hq']
      rw [this]
      simp [costAt, hq]

theorem foldl_merge_costs_dgetD (ds : List (PyDict Int)) (acc : PyDict Int)
    (q : String) :
    dgetD (ds.foldl merge_costs acc) q 0
      = dgetD acc q 0 + (ds.map fun d => costAt d q).sum := by
  induction ds generalizing acc with
  | nil => simp
  | cons d ds' ih =>
    rw [List.foldl_cons, ih, dgetD_merge_costs]
    simp [add_assoc]

/-- Claim C1: `merge_costs` maps every key to the sum of the values the
two inputs hold for it (a missing key counting as 0), and folding any
finite sequence of cost deltas into an initially empty cost map yields
at each key the exact sum of all the deltas' contributions to that key,
independently of the order of application. -/
theorem C1_merge_costs_additive :
    (∀ (left right : PyDict Int) (k : String), NodupKeys right →
      dgetD (merge_costs left right) k 0 = dgetD left k 0 + dgetD right k 0)
    ∧ (∀ (deltas : List (PyDict Int)) (k : String),
        (∀ d ∈ deltas, NodupKeys d) →
        dgetD (deltas.foldl merge_costs []) k 0
          = (deltas.map fun d => dgetD d k 0).sum)
    ∧ (∀ (ds1 ds2 : List (PyDict Int)) (k : String),
        ds1.Perm ds2 → (∀ d ∈ ds1, NodupKeys d) →
        dgetD (ds1.foldl merge_costs []) k 0
          = dgetD (ds2.foldl merge_costs []) k 0) := by
  refine ⟨?_, ?_, ?_⟩
  · intro l r k hr
    rw [dgetD_merge_costs, costAt_eq_dgetD r k hr]
  · intro ds k hds
    rw [foldl_merge_costs_dgetD]
    have h0 : dgetD ([] : PyDict Int) k 0 = 0 := rfl
    rw [h0, zero_add]
    have : ds.map (fun d => costAt d k) = ds.map fun d => dgetD d k 0 :=
      List.map_congr_left fun d hd => costAt_eq_dgetD d k (hds d hd)
    rw [this]
  · intro ds1 ds2 k hperm _
    rw [foldl_merge_costs_dgetD, foldl_merge_costs_dgetD]
    exact congrArg _ ((hperm.map fun d => costAt d k).sum_eq)

/-- Witness for C1 at concrete inputs. -/
theorem C1_merge_costs_additive_witness :
    dgetD (merge_costs [("a", 2)] [("a", 3), ("b", 1)]) "a" 0 = 5
    ∧ dgetD ([[("a", 2)], [("a", 3), ("b", 1)]].foldl merge_costs []) "b" 0 = 1
    ∧ dgetD ([[("a", 2)], [("a", 3), ("b", 1)]].foldl merge_costs []) "a" 0
      = dgetD ([[("a", 3), ("b", 1)], [("a", 2)]].foldl merge_costs []) "a" 0 := by
  refine ⟨?_, ?_, ?_⟩
  · rw [C1_merge_costs_additive.1 [("a", 2)] [("a", 3), ("b", 1)] "a" (by decide)]
    decide
  · rw [C1_merge_costs_additive.2.1 [[("a", 2)], [("a", 3), ("b", 1)]] "b"
      (by decide)]
    decide
  · exact C1_merge_costs_additive.2.2 _ _ "a" (by decide) (by decide)

/-- Claim C2 counterexample: "completed" belongs to the spec's status
set and, read as a spelling of "complete", ranks above "pending"; but
`status_priority` has no entry for "completed" (it defaults to 0), so
the reducer returns "pending" instead of "completed". -/
theorem C2_merge_status_counterexample :
    merge_status "completed" "pending" = "pending"
    ∧ ("pending" : String) ≠ "completed"
    ∧ status_priority "completed" = 0
    ∧ status_priority "complete" = 2
    ∧ status_priority "pending" = 1 := by
  refine ⟨by decide, by decide, by decide, by decide, by decide⟩

/-- Claim C2 (amended): on the five ranked statuses {pending, running,
partial, complete, error} the reducer returns the value ranked higher
by error > partial > running > complete > pending, keeps the left value
on ties, is idempotent on every string, and yields the same result
regardless of argument order; merging error with running in either
order yields error.  The spec's sixth spelling "completed" is not in
the priority table (priority 0, below "pending"), so merging it with
any ranked status yields the other status. -/
theorem C2_merge_status_amended :
    (∀ l r, l ∈ spec_status_order → r ∈ spec_status_order →
      merge_status l r
        = if spec_status_order.indexOf r ≤ spec_status_order.indexOf l then l
          else r)
    ∧ (∀ s, merge_status s s = s)
    ∧ (∀ l r, l ∈ spec_status_order → r ∈ spec_status_order →
        merge_status l r = merge_status r l)
    ∧ merge_status "error" "running" = "error"
    ∧ merge_status "running" "error" = "error"
    ∧ status_priority "completed" = 0
    ∧ merge_status "completed" "pending" = "pending" := by
  refine ⟨?_, ?_, ?_, by decide, by decide, by decide, by decide⟩
  · intro l r hl hr
    fin_cases hl <;> fin_cases hr <;> decide
  · intro s
    simp [merge_status]
  · intro l r hl hr
    fin_cases hl <;> fin_cases hr <;> decide

/-- Witness for the amended C2 at concrete inputs. -/
theorem C2_merge_status_amended_witness :
    merge_status "error" "running" = "error"
    ∧ merge_status "running" "error" = merge_status "error" "running" := by
  constructor
  · exact (C2_merge_status_amended.1 "error" "running" (by decide)
      (by decide)).trans (by decide)
  · exact C2_merge_status_amended.2.2.1 "running" "error" (by decide) (by decide)

theorem dget_merge_confidence (r l : PyDict ℚ) (q : String) (hr : NodupKeys r) :
    dget (merge_confidence_scores l r) q
      = match dget l q, dget r q with
        | some a, some b => some (max a b)
        | some a, none => some a
        | none, some b => some b
        | none, none => none := by
  induction r generalizing l with
  | nil =>
    cases hlq : dget l q <;> simp [merge_confidence_scores, dget, hlq]
  | cons kv r' ih =>
    unfold NodupKeys at hr
    simp only [List.map_cons, List.nodup_cons] at hr
    have hstep : merge_confidence_scores l (kv :: r')
        = merge_confidence_scores
            (match dget l kv.1 with
             | some cur => dset l kv.1 (max cur kv.2)
             | none => dset l kv.1 kv.2) r' := by
      simp only [merge_confidence_scores, List.foldl_cons]
    rw [hstep, ih _ hr.2]
    by_cases hq : q = kv.1
    · subst hq
      have hr'q : dget r' kv.1 = none :=
        dget_eq_none_of_not_mem_keys r' kv.1 hr.1
      cases hlq : dget l kv.1 with
      | some cur => simp [dget, hlq, dget_dset, hr'q]
      | none => simp [dget, hlq, dget_dset, hr'q]
    · have hq' : ¬ kv.1 = q := fun hc => hq hc.symm
      cases hlk : dget l kv.1 with
      | some cur => simp [dget, hq, hq', hlk, dget_dset]
      | none => simp [dget, hq, hq', hlk, dget_dset]

/-- Claim C3: for every key present in either input,
`merge_confidence_scores` yields the maximum of the two values when
both inputs hold the key, keeps the single value when only one input
holds it, and the merged dictionary has the same value at every key
regardless of which input is passed on the left. -/
theorem C3_merge_confidence_max :
    (∀ (left right : PyDict ℚ) (k : String) (a b : ℚ), NodupKeys right →
      dget left k = some a → dget right k = some b →
      dget (merge_confidence_scores left right) k = some (max a b))
    ∧ (∀ (left right : PyDict ℚ) (k : String) (a : ℚ), NodupKeys right →
      dget left k = some a → dget right k = none →
      dget (merge_confidence_scores left right) k = some a)
    ∧ (∀ (left right : PyDict ℚ) (k : String) (b : ℚ), NodupKeys right →
      dget left k = none → dget right k = some b →
      dget (merge_confidence_scores left right) k = some b)
    ∧ (∀ (left right : PyDict ℚ) (k : String),
      NodupKeys left → NodupKeys right →
      dget (merge_confidence_scores left right) k
        = dget (merge_confidence_scores right left) k) := by
  refine ⟨?_, ?_, ?_, ?_⟩
  · intro l r k a b hr hl hrk
    rw [dget_merge_confidence r l k hr, hl, hrk]
  · intro l r k a hr hl hrk
    rw [dget_merge_confidence r l k hr, hl, hrk]
  · intro l r k b hr hl hrk
    rw [dget_merge_confidence r l k hr, hl, hrk]
  · intro l r k hl hr
    rw [dget_merge_confidence r l k hr, dget_merge_confidence l r k hl]
    cases dget l k <;> cases dget r k <;> simp [max_comm]

/-- Witness for C3 at concrete inputs. -/
theorem C3_merge_confidence_max_witness :
    dget (merge_confidence_scores [("news", (0 : ℚ))] [("news", (1 : ℚ))]) "news"
      = some (1 : ℚ)
    ∧ dget (merge_confidence_scores [("news", (0 : ℚ))] [("news", (1 : ℚ))]) "news"
      = dget (merge_confidence_scores [("news", (1 : ℚ))] [("news", (0 : ℚ))]) "news" := by
  constructor
  · have h := C3_merge_confidence_max.1 [("news", (0 : ℚ))] [("news", (1 : ℚ))]
      "news" 0 1 (by decide) (by simp [dget]) (by simp [dget])
    rw [h]
    norm_num
  · exact C3_merge_confidence_max.2.2.2 [("news", (0 : ℚ))] [("news", (1 : ℚ))]
      "news" (by decide) (by decide)

/-- Claim C5: `check_budget` returns false exactly when `warn_only` is
false and the cumulative recorded spend plus the estimate strictly
exceeds the cap; in every other case it returns true.  The embedded
function is total, matching the source check that only logs and never
raises into the calling stage. -/
theorem C5_check_budget_iff :
    ∀ (cap : ℚ) (ledger : List LedgerEntry) (est : ℚ) (warn_only : Bool),
      (check_budget cap ledger est warn_only = false
        ↔ warn_only = false ∧ get_current_spend ledger none + est > cap)
      ∧ (check_budget cap ledger est warn_only = true
        ↔ ¬(warn_only = false ∧ get_current_spend ledger none + est > cap)) := by
  intro cap ledger est w
  unfold check_budget
  by_cases h : get_current_spend ledger none + est > cap
  · cases w <;> simp [h]
  · cases w <;> simp [h]

/-- Claim C6: `get_budget_status` reports `current_spend` as the sum of
all recorded ledger costs, `remaining` as cap minus spend, and health
"healthy" when remaining > 2, "warning" when 1/2 < remaining <= 2, and
"critical" otherwise. -/
theorem C6_get_budget_status :
    ∀ (cap : ℚ) (ledger : List LedgerEntry),
      ((get_budget_status cap ledger).current_spend
        = (ledger.map LedgerEntry.cost).sum)
      ∧ ((get_budget_status cap ledger).remaining
        = cap - (ledger.map LedgerEntry.cost).sum)
      ∧ (2 < (get_budget_status cap ledger).remaining →
          (get_budget_status cap ledger).status = "healthy")
      ∧ (1/2 < (get_budget_status cap ledger).remaining →
          (get_budget_status cap ledger).remaining ≤ 2 →
          (get_budget_status cap ledger).status = "warning")
      ∧ ((get_budget_status cap ledger).remaining ≤ 1/2 →
          (get_budget_status cap ledger).status = "critical") := by
  intro cap ledger
  refine ⟨rfl, rfl, ?_, ?_, ?_⟩
  · intro h2
    simp only [get_budget_status, get_current_spend] at h2 ⊢
    rw [if_pos h2]
  · intro hlo hhi
    simp only [get_budget_status, get_current_spend] at hlo hhi ⊢
    rw [if_neg (by exact not_lt.mpr hhi), if_pos hlo]
  · intro hc
    simp only [get_budget_status, get_current_spend] at hc ⊢
    have h2 : ¬ 2 < cap - (ledger.map LedgerEntry.cost).sum :=
      not_lt.mpr (hc.trans (by norm_num))
    rw [if_neg h2, if_neg (not_lt.mpr hc)]

/-- Witness for C6: the spec scenario — empty ledger, cap 10, three
`record_cost` calls of 3, 4 and 2 — reports spend 9, remaining 1 and
health "warning". -/
theorem C6_get_budget_status_witness :
    ((get_budget_status 10 (record_cost (record_cost (record_cost []
        "op1" 3 100 (some "r1")) "op2" 4 200 (some "r1")) "op3" 2 50
        (some "r1"))).current_spend = 9)
    ∧ ((get_budget_status 10 (record_cost (record_cost (record_cost []
        "op1" 3 100 (some "r1")) "op2" 4 200 (some "r1")) "op3" 2 50
        (some "r1"))).remaining = 1)
    ∧ ((get_budget_status 10 (record_cost (record_cost (record_cost []
        "op1" 3 100 (some "r1")) "op2" 4 200 (some "r1")) "op3" 2 50
        (some "r1"))).status = "warning") := by
  have h := C6_get_budget_status 10 (record_cost (record_cost (record_cost []
    "op1" 3 100 (some "r1")) "op2" 4 200 (some "r1")) "op3" 2 50 (some "r1"))
  refine ⟨h.1.trans (by norm_num [record_cost]),
    h.2.1.trans (by norm_num [record_cost]), ?_⟩
  exact h.2.2.2.1 (by rw [h.2.1]; norm_num [record_cost])
    (by rw [h.2.1]; norm_num [record_cost])

/-- Claim C7: the compiled LLM workflow graph is a single chain — every
node has at most one outgoing edge and no node is the source of two
edges — and the executor trace from START visits exactly the eight
stage nodes in the declared order discovery, news, founder,
competitive, patent, deepdive, verification, synthesis, terminating
right after synthesis, whose unique successor is END.  The successor
relation is a function of the node name alone (no conditional routing),
so the trace is the same whatever the stages produce. -/
theorem C7_sequential_graph :
    run_trace 9 "__start__"
      = ["discovery_llm_agent", "news_llm_agent", "founder_llm_agent",
         "competitive_llm_agent", "patent_llm_agent", "deepdive_llm_agent",
         "verification_llm_agent", "synthesis_llm"]
    ∧ (llm_graph_edges.map Prod.fst).Nodup
    ∧ next_node "synthesis_llm" = some "__end__" := by
  refine ⟨by decide, by decide, by decide⟩

/-- Claim C10: the run-creation endpoint stores the run with status
"pending" yet its response body reports status "running" with the same
generated run id. -/
theorem C10_create_run_response :
    ∀ (uuid_hex company : String) (domain : Option String),
      ((create_run uuid_hex company domain).1.status = "pending")
      ∧ ((create_run uuid_hex company domain).2.status = "running")
      ∧ ((create_run uuid_hex company domain).2.run_id
          = (create_run uuid_hex company domain).1.run_id)
      ∧ ((create_run uuid_hex company domain).1.run_id
          = "r_" ++ uuid_hex.take 8) := by
  intro u c d
  exact ⟨rfl, rfl, rfl, rfl⟩

/-- Claim C4 counterexample: when its body raises, the legacy
`redflag_screener_node` returns a delta whose status is "error", not
"partial" as the claim states for every stage node. -/
theorem C4_redflag_status_counterexample :
    (redflag_screener_node [] (.error "boom") 0).status = "error"
    ∧ (redflag_screener_node [] (.error "boom") 0).status ≠ "partial" := by
  exact ⟨rfl, by decide⟩

/-- Claim C4 (amended): every stage node catches an exception of its
body at the node boundary and returns a non-null delta (the embedded
node functions are total) in which exactly one error record — carrying
the stage name, the exception message and a timestamp — has been
appended and no previously recorded error is removed; the LLM workflow
nodes set status "partial", while the legacy `redflag_screener_node`
sets status "error". -/
theorem C4_stage_error_handling :
    ∀ (state : LLMRunState) (msg : String) (now : Nat)
      (prev : List ErrorEntry),
      ((discovery_llm_node state (.error msg) now).errors
        = state.errors
          ++ [{ agent := "discovery_llm", message := msg, timestamp := now }])
      ∧ ((discovery_llm_node state (.error msg) now).status = "partial")
      ∧ ((redflag_screener_node prev (.error msg) now).errors
        = some (prev
          ++ [{ agent := "redflag_screener", message := msg, timestamp := now }]))
      ∧ ((redflag_screener_node prev (.error msg) now).status = "error") := by
  intro s m n p
  exact ⟨rfl, rfl, rfl, rfl⟩

theorem foldl_persist_step_aborted (present failing : String → Bool)
    (caught : Bool) (kinds : List String) (att : List String) :
    kinds.foldl (persist_step present failing caught) (att, true) = (att, true) := by
  induction kinds with
  | nil => rfl
  | cons k rest ih => simp [persist_step, ih]

theorem foldl_persist_step_caught (present failing : String → Bool)
    (kinds : List String) (att : List String) :
    kinds.foldl (persist_step present failing true) (att, false)
      = (att ++ kinds.filter present, false) := by
  induction kinds generalizing att with
  | nil => simp
  | cons k rest ih =>
    by_cases h : present k
    · simp [persist_step, h, ih, List.filter_cons]
    · simp [persist_step, h, ih, List.filter_cons]

theorem foldl_persist_step_uncaught (present failing : String → Bool)
    (kinds : List String) (att : List String) :
    (kinds.foldl (persist_step present failing false) (att, false)).1
      = att ++ firstFailSeq failing (kinds.filter present) := by
  induction kinds generalizing att with
  | nil => simp [firstFailSeq]
  | cons k rest ih =>
    by_cases hp : present k
    · by_cases hf : failing k
      · simp [persist_step, hp, hf, List.filter_cons,
          foldl_persist_step_aborted, firstFailSeq]
      · simp [persist_step, hp, hf, List.filter_cons, ih, firstFailSeq]
    · simp [persist_step, hp, List.filter_cons, ih]

/-- Claim C8 counterexample: the legacy `_persist_results_to_db` wraps
all entity-kind writes in one shared try block, so a failing news write
aborts the sequence — the patents write is never attempted, contrary to
the claim. -/
theorem C8_persist_counterexample :
    (persist_results_to_db (fun _ => true) (fun k => k == "news")).1 = ["news"]
    ∧ "patents" ∉ (persist_results_to_db (fun _ => true) (fun k => k == "news")).1 := by
  exact ⟨by decide, by decide⟩

/-- Claim C8 (amended): in `_persist_llm_results_to_db` every present
entity kind is attempted regardless of which writes fail (each write
has its own handler; the final insights write is last, protected by the
outer handler), and the function never raises to its caller, so the
run's final status update always proceeds.  In the legacy
`_persist_results_to_db`, however, the attempted writes stop at the
first failing kind — later kinds are skipped — though the failure is
still swallowed and the final status update still proceeds. -/
theorem C8_persist_resilience :
    ∀ (present failing : String → Bool),
      ((persist_llm_results_to_db present failing).1
        = (llm_caught_kinds ++ ["insights"]).filter present)
      ∧ ((persist_llm_results_to_db present failing).2 = false)
      ∧ ((persist_results_to_db present failing).1
        = firstFailSeq failing (legacy_kinds.filter present))
      ∧ ((persist_results_to_db present failing).2 = false) := by
  intro p f
  refine ⟨?_, rfl, ?_, rfl⟩
  · show (persist_step p f false
      (llm_caught_kinds.foldl (persist_step p f true) ([], false)) "insights").1
      = (llm_caught_kinds ++ ["insights"]).filter p
    rw [foldl_persist_step_caught]
    by_cases h : p "insights" <;>
      simp [persist_step, h, List.filter_append, List.filter_cons]
  · show (legacy_kinds.foldl (persist_step p f false) ([], false)).1
      = firstFailSeq f (legacy_kinds.filter p)
    rw [foldl_persist_step_uncaught]
    simp

theorem merge_queries_eq_foldl (h : ListHeap) (l r : PyDict Nat) :
    merge_queries h l r = r.foldl extend_step (h, l) := rfl

theorem merge_results_eq_merge_queries (h : ListHeap) (l r : PyDict Nat) :
    merge_results h l r = merge_queries h l r := rfl

theorem length_heapSet (h : ListHeap) (a : Nat) (v : List String) :
    (heapSet h a v).length = h.length := by
  simp [heapSet]

theorem heapGet_heapSet_same :
    ∀ (h : ListHeap) (a : Nat) (v : List String),
      a < h.length → heapGet (heapSet h a v) a = v := by
  intro h
  induction h with
  | nil =>
    intro a v ha
    simp at ha
  | cons x xs ih =>
    intro a v ha
    cases a with
    | zero => rfl
    | succ n =>
      have hn : n < xs.length := Nat.lt_of_succ_lt_succ (by simpa using ha)
      exact ih n v hn

theorem heapGet_heapSet_other :
    ∀ (h : ListHeap) (a b : Nat) (v : List String),
      a ≠ b → heapGet (heapSet h b v) a = heapGet h a := by
  intro h
  induction h with
  | nil => intro a b v _; rfl
  | cons x xs ih =>
    intro a b v hab
    cases b with
    | zero =>
      cases a with
      | zero => exact absurd rfl hab
      | succ m => rfl
    | succ n =>
      cases a with
      | zero => rfl
      | succ m => exact ih m n v fun hc => hab (by rw [hc])

theorem dget_mem_values {α : Type} :
    ∀ (d : PyDict α) (k : String) (v : α),
      dget d k = some v → v ∈ d.map Prod.snd := by
  intro d
  induction d with
  | nil => intro k v h; simp [dget] at h
  | cons p rest ih =>
    intro k v h
    by_cases hp : p.1 = k
    · simp only [dget, if_pos hp, Option.some.injEq] at h
      simp [← h]
    · simp only [dget, if_neg hp] at h
      simp [ih k v h]

theorem dget_distinct_addrs :
    ∀ (d : PyDict Nat), NodupKeys d → (addrs d).Nodup →
      ∀ (k1 k2 : String) (a1 a2 : Nat), k1 ≠ k2 →
        dget d k1 = some a1 → dget d k2 = some a2 → a1 ≠ a2 := by
  intro d
  induction d with
  | nil => intro _ _ k1 k2 a1 a2 _ hd1 _; simp [dget] at hd1
  | cons p rest ih =>
    intro h1 h2 k1 k2 a1 a2 hk hd1 hd2
    unfold NodupKeys at h1
    simp only [List.map_cons, List.nodup_cons] at h1
    simp only [addrs, List.map_cons, List.nodup_cons] at h2
    by_cases hp1 : p.1 = k1
    · have hp2 : ¬ p.1 = k2 := fun hc => hk (hp1.symm.trans hc)
      simp only [dget, if_pos hp1, Option.some.injEq] at hd1
      simp only [dget, if_neg hp2] at hd2
      have hmem : a2 ∈ rest.map Prod.snd := dget_mem_values rest k2 a2 hd2
      intro hEq
      exact h2.1 (by rw [hd1, hEq]; exact hmem)
    · by_cases hp2 : p.1 = k2
      · have hp1' : ¬ p.1 = k1 := hp1
        simp only [dget, if_pos hp2, Option.some.injEq] at hd2
        simp only [dget, if_neg hp1'] at hd1
        have hmem : a1 ∈ rest.map Prod.snd := dget_mem_values rest k1 a1 hd1
        intro hEq
        exact h2.1 (by rw [hd2, ← hEq]; exact hmem)
      · simp only [dget, if_neg hp1] at hd1
        simp only [dget, if_neg hp2] at hd2
        exact ih h1.2 h2.2 k1 k2 a1 a2 hk hd1 hd2

theorem fold_extend_heap_invariant :
    ∀ (rest : PyDict Nat) (h : ListHeap) (res : PyDict Nat) (a : Nat),
      NodupKeys rest →
      (∀ kv ∈ rest, ∀ a', dget res kv.1 = some a' → a' ≠ a) →
      heapGet (rest.foldl extend_step (h, res)).1 a = heapGet h a := by
  intro rest
  induction rest with
  | nil => intro h res a _ _; rfl
  | cons kv rest' ih =>
    intro h res a hnd hsafe
    unfold NodupKeys at hnd
    simp only [List.map_cons, List.nodup_cons] at hnd
    rw [List.foldl_cons]
    cases hres : dget res kv.1 with
    | some a0 =>
      have ha0 : a0 ≠ a := hsafe kv (List.mem_cons_self kv rest') a0 hres
      have hstep : extend_step (h, res) kv
          = (heapSet h a0 (heapGet h a0 ++ heapGet h kv.2), res) := by
        simp [extend_step, hres]
      rw [hstep,
        ih _ _ _ hnd.2
          (fun kv' hkv' a' hget =>
            hsafe kv' (List.mem_cons_of_mem kv hkv') a' hget)]
      exact heapGet_heapSet_other h a a0 _ (Ne.symm ha0)
    | none =>
      have hstep : extend_step (h, res) kv = (h, dset res kv.1 kv.2) := by
        simp [extend_step, hres]
      rw [hstep]
      apply ih _ _ _ hnd.2
      intro kv' hkv' a' hget
      have hne : kv'.1 ≠ kv.1 := by
        intro hc
        exact hnd.1 (hc ▸ List.mem_map_of_mem Prod.fst hkv')
      rw [dget_dset, if_neg hne] at hget
      exact hsafe kv' (List.mem_cons_of_mem kv hkv') a' hget

theorem fold_extend_dget_stable :
    ∀ (rest : PyDict Nat) (h : ListHeap) (res : PyDict Nat) (k : String) (a : Nat),
      dget res k = some a →
      dget (rest.foldl extend_step (h, res)).2 k = some a := by
  intro rest
  induction rest with
  | nil => intro h res k a hk; exact hk
  | cons kv rest' ih =>
    intro h res k a hk
    rw [List.foldl_cons]
    cases hres : dget res kv.1 with
    | some a0 =>
      have hstep : extend_step (h, res) kv
          = (heapSet h a0 (heapGet h a0 ++ heapGet h kv.2), res) := by
        simp [extend_step, hres]
      rw [hstep]
      exact ih _ _ k a hk
    | none =>
      have hne : k ≠ kv.1 := by
        intro hc
        rw [hc] at hk
        rw [hk] at hres
        exact Option.noConfusion hres
      have hstep : extend_step (h, res) kv = (h, dset res kv.1 kv.2) := by
        simp [extend_step, hres]
      rw [hstep]
      apply ih
      rw [dget_dset, if_neg hne]
      exact hk

theorem fold_extend_shared_key :
    ∀ (rest : PyDict Nat) (h : ListHeap) (res : PyDict Nat)
      (k : String) (al ar : Nat),
      NodupKeys rest →
      dget res k = some al →
      dget rest k = some ar →
      (∀ kv ∈ rest, kv.1 ≠ k → ∀ a', dget res kv.1 = some a' → a' ≠ al) →
      (∀ kv ∈ rest, ∀ a', dget res kv.1 = some a' → a' ≠ ar) →
      al < h.length →
      heapGet (rest.foldl extend_step (h, res)).1 al
        = heapGet h al ++ heapGet h ar := by
  intro rest
  induction rest with
  | nil => intro h res k al ar _ _ hrk; simp [dget] at hrk
  | cons kv rest' ih =>
    intro h res k al ar hnd hresk hrk hA hB hlen
    unfold NodupKeys at hnd
    simp only [List.map_cons, List.nodup_cons] at hnd
    rw [List.foldl_cons]
    by_cases hkk : kv.1 = k
    · have har : ar = kv.2 := by
        simp only [dget, if_pos hkk, Option.some.injEq] at hrk
        exact hrk.symm
      have hreskv : dget res kv.1 = some al := by rw [hkk]; exact hresk
      have hstep : extend_step (h, res) kv
          = (heapSet h al (heapGet h al ++ heapGet h kv.2), res) := by
        simp [extend_step, hreskv]
      rw [hstep]
      have hsafe : ∀ kv' ∈ rest', ∀ a', dget res kv'.1 = some a' → a' ≠ al := by
        intro kv' hkv' a' hget
        have hne : kv'.1 ≠ k := by
          intro hc
          refine hnd.1 ?_
          rw [hkk, ← hc]
          exact List.mem_map_of_mem Prod.fst hkv'
        exact hA kv' (List.mem_cons_of_mem kv hkv') hne a' hget
      rw [fold_extend_heap_invariant rest' _ res al hnd.2 hsafe,
        heapGet_heapSet_same h al _ hlen, har]
    · have hrk' : dget rest' k = some ar := by
        simpa only [dget, if_neg hkk] using hrk
      cases hres0 : dget res kv.1 with
      | some a0 =>
        have ha0al : a0 ≠ al :=
          hA kv (List.mem_cons_self kv rest') hkk a0 hres0
        have ha0ar : a0 ≠ ar :=
          hB kv (List.mem_cons_self kv rest') a0 hres0
        have hstep : extend_step (h, res) kv
            = (heapSet h a0 (heapGet h a0 ++ heapGet h kv.2), res) := by
          simp [extend_step, hres0]
        rw [hstep]
        rw [ih (heapSet h a0 (heapGet h a0 ++ heapGet h kv.2)) res k al ar
          hnd.2 hresk hrk'
          (fun kv' hkv' hne a' hget =>
            hA kv' (List.mem_cons_of_mem kv hkv') hne a' hget)
          (fun kv' hkv' a' hget =>
            hB kv' (List.mem_cons_of_mem kv hkv') a' hget)
          (by rw [length_heapSet]; exact hlen)]
        rw [heapGet_heapSet_other h al a0 _ (Ne.symm ha0al),
          heapGet_heapSet_other h ar a0 _ (Ne.symm ha0ar)]
      | none =>
        have hstep : extend_step (h, res) kv = (h, dset res kv.1 kv.2) := by
          simp [extend_step, hres0]
        rw [hstep]
        have hkne : k ≠ kv.1 := fun hc => hkk hc.symm
        apply ih h (dset res kv.1 kv.2) k al ar hnd.2 ?_ hrk' ?_ ?_ hlen
        · rw [dget_dset, if_neg hkne]
          exact hresk
        · intro kv' hkv' hne a' hget
          have hne2 : kv'.1 ≠ kv.1 := by
            intro hc
            exact hnd.1 (hc ▸ List.mem_map_of_mem Prod.fst hkv')
          rw [dget_dset, if_neg hne2] at hget
          exact hA kv' (List.mem_cons_of_mem kv hkv') hne a' hget
        · intro kv' hkv' a' hget
          have hne2 : kv'.1 ≠ kv.1 := by
            intro hc
            exact hnd.1 (hc ▸ List.mem_map_of_mem Prod.fst hkv')
          rw [dget_dset, if_neg hne2] at hget
          exact hB kv' (List.mem_cons_of_mem kv hkv') a' hget

/-- Claim C9 counterexample: `merge_queries` is not pure in its left
input.  With a heap holding the lists ["a"] (address 0, bound by the
left dict at key "news") and ["b"] (address 1, bound by the right dict
at the same key), the merge extends the list object at address 0 in
place: after the call the left input's list reads ["a", "b"], no longer
its original ["a"]. -/
theorem C9_pure_reducer_counterexample :
    heapGet (merge_queries [["a"], ["b"]] [("news", 0)] [("news", 1)]).1 0
      = ["a", "b"]
    ∧ heapGet [["a"], ["b"]] 0 = ["a"]
    ∧ heapGet (merge_queries [["a"], ["b"]] [("news", 0)] [("news", 1)]).1 0
      ≠ heapGet [["a"], ["b"]] 0 := by
  exact ⟨by decide, by decide, by decide⟩

/-- Claim C9 (amended): for well-formed inputs (dicts with distinct
keys, left binding pairwise distinct valid list objects none of which
is also bound by right), `merge_queries` leaves every list object of
the right input unchanged and, for each shared key, the merged dict
still binds the left input's list object, which now holds the
concatenation of the left and right contents; the reducers are not
pure, however — that left-bound list object is extended in place, as
the counterexample shows — and `merge_results` is the same function. -/
theorem C9_merge_reducers_amended :
    ∀ (h : ListHeap) (left right : PyDict Nat),
      NodupKeys left → NodupKeys right →
      (addrs left).Nodup →
      (∀ a ∈ addrs left, a < h.length) →
      (∀ a ∈ addrs left, a ∉ addrs right) →
      (∀ a ∈ addrs right, heapGet (merge_queries h left right).1 a = heapGet h a)
      ∧ (∀ k al ar, dget left k = some al → dget right k = some ar →
          dget (merge_queries h left right).2 k = some al
          ∧ heapGet (merge_queries h left right).1 al
            = heapGet h al ++ heapGet h ar)
      ∧ merge_results h left right = merge_queries h left right := by
  intro h left right hkl hkr hal hbound hdisj
  refine ⟨?_, ?_, rfl⟩
  · intro a ha
    rw [merge_queries_eq_foldl]
    apply fold_extend_heap_invariant right h left a hkr
    intro kv _ a' hget
    intro hc
    have : a' ∈ addrs left := dget_mem_values left kv.1 a' hget
    exact hdisj a' this (hc ▸ ha)
  · intro k al ar hlk hrk
    have hmem_al : al ∈ addrs left := dget_mem_values left k al hlk
    have hmem_ar : ar ∈ addrs right := dget_mem_values right k ar hrk
    constructor
    · rw [merge_queries_eq_foldl]
      exact fold_extend_dget_stable right h left k al hlk
    · rw [merge_queries_eq_foldl]
      apply fold_extend_shared_key right h left k al ar hkr hlk hrk
      · intro kv _ hne a' hget
        exact dget_distinct_addrs left hkl hal kv.1 k a' al hne hget hlk
      · intro kv _ a' hget
        intro hc
        have : a' ∈ addrs left := dget_mem_values left kv.1 a' hget
        exact hdisj a' this (hc ▸ hmem_ar)
      · exact hbound al hmem_al

/-- Witness for the amended C9 at concrete inputs. -/
theorem C9_merge_reducers_amended_witness :
    heapGet (merge_queries [["a"], ["b"]] [("news", 0)] [("news", 1)]).1 1
      = ["b"]
    ∧ dget (merge_queries [["a"], ["b"]] [("news", 0)] [("news", 1)]).2 "news"
      = some 0
    ∧ heapGet (merge_queries [["a"], ["b"]] [("news", 0)] [("news", 1)]).1 0
      = ["a", "b"] := by
  have h := C9_merge_reducers_amended [["a"], ["b"]] [("news", 0)] [("news", 1)]
    (by decide) (by decide) (by decide) (by decide) (by decide)
  refine ⟨(h.1 1 (by decide)).trans (by decide), ?_, ?_⟩
  · exact (h.2.1 "news" 0 1 (by decide) (by decide)).1
  · exact ((h.2.1 "news" 0 1 (by decide) (by decide)).2).trans (by decide)
